import Mathlib

/-!
Zeitwerk native directory lister.

A shallow embedding of `ext/zeitwerk/zeitwerk_native.c`
(`zw_has_rb_extension`, `zw_syserr_fail_path`, `zw_syserr_fail_dir_entry`,
`zw_filtered_dir_entries_with_type`) together with the properties of the
listing it returns.

The operating system is an explicit oracle: `World.opendir` answers the single
`opendir` call, and the `DIR` it yields fixes what `readdir`, `dirfd`,
`fstatat` and `closedir` answer on that stream.  Every system call the C
function makes is logged, in order, in the trace of the run, so that
statements about which calls happen (and how often) can be made.

The `struct dirent` that `readdir` returns lives in the buffer of the stream.
The only read of it that follows a `closedir` is the one of line 87, which
builds the message of the failed status query; what that read finds is the
oracle `DIR.freed_d_name`.
-/

namespace Zeitwerk

/-! ## C strings -/

/-- A C string, represented by the `char`s that precede its terminating NUL. -/
abbrev CStr := List Char

/-- The expression `s[i]` of C: the `char` at index `i`; index `strlen s` holds the
terminating NUL. -/
def CStr.at (s : CStr) (i : Nat) : Char := s.getD i (Char.ofNat 0)

/-- The `strlen` of `<string.h>`. -/
def strlen (s : CStr) : Nat := s.length

/-! ## Platform constants

The `d_type` constants of `<dirent.h>` and the file-type macros of
`<sys/stat.h>` are not part of the source file; they carry the values of the
Linux C library. -/

/-- Modelled from the spec: the reported type "unknown" (`DT_UNKNOWN` of `<dirent.h>`). -/
def DT_UNKNOWN : Nat := 0
/-- Modelled from the spec: the reported type "directory" (`DT_DIR` of `<dirent.h>`). -/
def DT_DIR : Nat := 4
/-- Modelled from the spec: the reported type "regular file" (`DT_REG` of `<dirent.h>`). -/
def DT_REG : Nat := 8
/-- Modelled from the spec: the reported type "symbolic link" (`DT_LNK` of `<dirent.h>`). -/
def DT_LNK : Nat := 10

/-- Modelled from the spec: the file-type mask `S_IFMT` of `<sys/stat.h>`. -/
def S_IFMT : Nat := 0o170000
/-- Modelled from the spec: the file-type bits of a regular file, `S_IFREG`. -/
def S_IFREG : Nat := 0o100000
/-- Modelled from the spec: the file-type bits of a directory, `S_IFDIR`. -/
def S_IFDIR : Nat := 0o040000

/-- Modelled from the spec: the macro `S_ISREG` of `<sys/stat.h>` ("the status query reports a
regular file"). -/
def S_ISREG (st_mode : Nat) : Bool := (st_mode &&& S_IFMT) == S_IFREG
/-- Modelled from the spec: the macro `S_ISDIR` of `<sys/stat.h>` ("the status query reports a
directory"). -/
def S_ISDIR (st_mode : Nat) : Bool := (st_mode &&& S_IFMT) == S_IFDIR

/-! ## Data model -/

/-- The fields of `struct dirent` the function reads. -/
structure dirent where
  d_name : CStr
  d_type : Nat
  deriving DecidableEq, Repr

/-- The two interned symbols `id_file` and `id_directory`. -/
inductive Sym where
  | file
  | directory
  deriving DecidableEq, Repr

/-- A pair built by `rb_assoc_new`: the entry name and its classification. -/
abbrev Tuple := CStr × Sym

/-- The exception raised by `rb_syserr_fail_str (err, msg)`: the OS error code and the message. -/
structure SystemCallError where
  errno : Nat
  message : CStr
  deriving DecidableEq, Repr

/-- The system calls the function makes. -/
inductive Syscall where
  | opendir
  | readdir
  | dirfd
  | fstatat (d_name : CStr)
  | closedir
  deriving DecidableEq, Repr

/-- One system call of a run: the call, and the `errno` it failed with (`none` when it
succeeded; a `readdir` that reports end-of-stream succeeded). -/
structure Event where
  call : Syscall
  err : Option Nat
  deriving DecidableEq, Repr

/-- An open directory stream: what each system call on it answers.
* `entries`: the entries successive `readdir` calls yield before the one that returns `NULL`;
* `readdir_errno`: the `errno` left by the `readdir` that returns `NULL` (`0` at end-of-stream);
* `dirfd`, `dirfd_errno`: the value `dirfd` returns, and the `errno` it sets when negative;
* `fstatat dfd name`: `.ok st_mode` when `fstatat (dfd, name, &st, 0)` returns `0`,
  `.error errno` otherwise;
* `closedir`: `none` when `closedir` returns `0`, `some errno` otherwise;
* `freed_d_name name`: the C string found at `entry->d_name` once `closedir` has released the
  stream, for the entry whose name was `name`.  The `struct dirent` that `readdir` returns
  lies in the buffer of the stream, so after `closedir` its bytes are whatever the allocator
  and later allocations left there. -/
structure DIR where
  entries : List dirent
  readdir_errno : Nat
  dirfd : Int
  dirfd_errno : Nat
  fstatat : Int → CStr → Except Nat Nat
  closedir : Option Nat
  freed_d_name : CStr → CStr

/-- The file system as seen by one call: `opendir path` is `.ok dirp` or `.error errno`
(a `NULL` return). -/
structure World where
  opendir : CStr → Except Nat DIR

/-! ## The code -/

/-- The function `zw_has_rb_extension` (lines 23-27). -/
def zw_has_rb_extension (name : CStr) (len : Nat) : Bool :=
  decide (len > 3) && name.at (len - 3) == '.' && name.at (len - 2) == 'r'
    && name.at (len - 1) == 'b'

/-- The function `zw_syserr_fail_path` (lines 29-34): the exception for `"%s @ %s"`. -/
def zw_syserr_fail_path (func_name : String) (err : Nat) (path : CStr) : SystemCallError :=
  ⟨err, func_name.toList ++ " @ ".toList ++ path⟩

/-- The function `zw_syserr_fail_dir_entry` (lines 36-41): the exception for `"%s @ %s/%s"`. -/
def zw_syserr_fail_dir_entry (func_name : String) (err : Nat) (dir d_name : CStr) :
    SystemCallError :=
  ⟨err, func_name.toList ++ " @ ".toList ++ dir ++ "/".toList ++ d_name⟩

/-- Lines 98-107: push the tuple of an entry whose (possibly resolved) type is `type`. -/
def zw_push_entry (entry : dirent) (type : Nat) (result : List Tuple) : List Tuple :=
  if type == DT_REG then
    let len := strlen entry.d_name
    if zw_has_rb_extension entry.d_name len then
      result ++ [(entry.d_name.take len, Sym.file)]
    else result
  else if type == DT_DIR then
    result ++ [(entry.d_name, Sym.directory)]
  else result

/-- How one pass through the body of `while (1)` leaves it, for an entry `readdir` returned. -/
inductive IterExit where
  /-- The body reached its end (or `continue`): the loop variables and the trace so far. -/
  | next (dfd : Int) (result : List Tuple) (trace : List Event)
  /-- The body raised: the exception and the trace up to it. -/
  | raised (e : SystemCallError) (trace : List Event)

/-- Lines 84-107: the status query on `entry` through the descriptor `dfd`, the resolution of
`type`, and the push.  On failure line 86 closes the stream and line 87 then reads
`entry->d_name` for the message: the name that reaches `zw_syserr_fail_dir_entry` is what
that read finds in the released buffer, `dirp.freed_d_name entry.d_name`. -/
def zw_fstatat_entry (dirp : DIR) (cstr_abspath : CStr) (entry : dirent) (type : Nat)
    (dfd : Int) (result : List Tuple) (tr : List Event) : IterExit :=
  match dirp.fstatat dfd entry.d_name with
  | .error err =>
    .raised
      (zw_syserr_fail_dir_entry "fstatat" err cstr_abspath (dirp.freed_d_name entry.d_name))
      (tr ++ [⟨.fstatat entry.d_name, some err⟩, ⟨.closedir, dirp.closedir⟩])
  | .ok st_mode =>
    let type := if S_ISREG st_mode then DT_REG else if S_ISDIR st_mode then DT_DIR else type
    .next dfd (zw_push_entry entry type result) (tr ++ [⟨.fstatat entry.d_name, none⟩])

/-- Lines 67-107: the body of `while (1)` for a non-`NULL` `entry`. -/
def zw_iteration (dirp : DIR) (cstr_abspath : CStr) (entry : dirent)
    (dfd : Int) (result : List Tuple) (tr : List Event) : IterExit :=
  if entry.d_name.at 0 == '.' then .next dfd result tr
  else
    let type := entry.d_type
    if type == DT_UNKNOWN || type == DT_LNK then
      if dfd < 0 then
        let dfd := dirp.dirfd
        if dfd < 0 then
          let err := dirp.dirfd_errno
          .raised (zw_syserr_fail_path "dirfd" err cstr_abspath)
            (tr ++ [⟨.dirfd, some err⟩, ⟨.closedir, dirp.closedir⟩])
        else zw_fstatat_entry dirp cstr_abspath entry type dfd result (tr ++ [⟨.dirfd, none⟩])
      else zw_fstatat_entry dirp cstr_abspath entry type dfd result tr
    else .next dfd (zw_push_entry entry type result) tr

/-- How the loop `while (1)` is left. -/
inductive LoopExit where
  /-- By `break` on a `NULL` entry: the value of `errno`, the array and the trace. -/
  | broke (errno : Nat) (result : List Tuple) (trace : List Event)
  /-- By an exception raised in the body. -/
  | raised (e : SystemCallError) (trace : List Event)

/-- Lines 61-108: the loop `while (1)`, run on the entries the stream still has to yield. -/
def zw_loop (dirp : DIR) (cstr_abspath : CStr) :
    List dirent → Int → List Tuple → List Event → LoopExit
  | [], _, result, tr =>
    .broke dirp.readdir_errno result
      (tr ++ [⟨.readdir, if dirp.readdir_errno = 0 then none else some dirp.readdir_errno⟩])
  | entry :: rest, dfd, result, tr =>
    match zw_iteration dirp cstr_abspath entry dfd result (tr ++ [⟨.readdir, none⟩]) with
    | .next dfd result tr => zw_loop dirp cstr_abspath rest dfd result tr
    | .raised e tr => .raised e tr

/-- A run of the function: what it returns or raises, and the system calls it made. -/
structure Run where
  outcome : Except SystemCallError (List Tuple)
  trace : List Event

/-- The function `zw_filtered_dir_entries_with_type` (lines 43-123). -/
def zw_filtered_dir_entries_with_type (w : World) (abspath : CStr) : Run :=
  let cstr_abspath := abspath
  match w.opendir cstr_abspath with
  | .error errno =>
    ⟨.error (zw_syserr_fail_path "opendir" errno cstr_abspath), [⟨.opendir, some errno⟩]⟩
  | .ok dirp =>
    match zw_loop dirp cstr_abspath dirp.entries (-1) [] [⟨.opendir, none⟩] with
    | .raised e tr => ⟨.error e, tr⟩
    | .broke errno result tr =>
      if errno ≠ 0 then
        let err := errno
        ⟨.error (zw_syserr_fail_path "readdir" err cstr_abspath),
          tr ++ [⟨.closedir, dirp.closedir⟩]⟩
      else
        match dirp.closedir with
        | some errno =>
          ⟨.error (zw_syserr_fail_path "closedir" errno cstr_abspath),
            tr ++ [⟨.closedir, some errno⟩]⟩
        | none => ⟨.ok result, tr ++ [⟨.closedir, none⟩]⟩

/-- The listing operation of the specification. -/
def list (w : World) (path : CStr) : Except SystemCallError (List Tuple) :=
  (zw_filtered_dir_entries_with_type w path).outcome

/-! ## The listing in the words of the specification -/

/-- The resolved kind of the specification: regular file, directory, or neither. -/
inductive Kind where
  | regular
  | directory
  | other
  deriving DecidableEq, Repr

/-- The kind a reported type stands for when no status query is needed. -/
def reportedKind (d_type : Nat) : Kind :=
  if d_type = DT_REG then .regular else if d_type = DT_DIR then .directory else .other

/-- The kind a successful status query reports. -/
def statKind (st_mode : Nat) : Kind :=
  if S_ISREG st_mode then .regular else if S_ISDIR st_mode then .directory else .other

/-- The resolved kind of an entry: a reported type of unknown or symbolic-link is replaced by
what the status query on the directory descriptor reports. -/
def resolvedKind (d : DIR) (e : dirent) : Kind :=
  if e.d_type = DT_UNKNOWN ∨ e.d_type = DT_LNK then
    match d.fstatat d.dirfd e.d_name with
    | .ok st_mode => statKind st_mode
    | .error _ => .other
  else reportedKind e.d_type

/-- What the specification emits for a name of a given resolved kind: `(name, File)` for a
regular file whose name is longer than 3 characters and ends in `.rb`, `(name, Directory)` for
a directory, nothing otherwise. -/
def emitKind (name : CStr) : Kind → Option Tuple
  | .regular =>
    if 3 < name.length ∧ ".rb".toList <:+ name then some (name, Sym.file) else none
  | .directory => some (name, Sym.directory)
  | .other => none

/-- What the specification emits for one raw entry: nothing for a name that begins with `.`,
otherwise what its resolved kind emits. -/
def emitted (d : DIR) (e : dirent) : Option Tuple :=
  if e.d_name.head? = some '.' then none else emitKind e.d_name (resolvedKind d e)

/-- The sequence of the specification: the raw entries in stream order, each replaced by what
it emits. -/
def listing (d : DIR) : List Tuple := d.entries.filterMap (emitted d)

/-- The entry gets through the type resolution: when it is not hidden and its reported type is
unknown or symbolic-link, the directory descriptor is obtained and the status query succeeds. -/
def Resolves (d : DIR) (e : dirent) : Prop :=
  e.d_name.head? ≠ some '.' → (e.d_type = DT_UNKNOWN ∨ e.d_type = DT_LNK) →
    0 ≤ d.dirfd ∧ ∃ st_mode, d.fstatat d.dirfd e.d_name = .ok st_mode

/-- The exception raised for a failed system call: the four kinds of the error taxonomy
(`opendir`, `fstatat`, `readdir`, `closedir`) and the `dirfd` failure of lines 76-81.  The
entry name in the `fstatat` message is the one read after the stream was closed, `freed`
applied to the name the query was issued on. -/
def taxonomy (freed : CStr → CStr) (c : Syscall) (err : Nat) (path : CStr) :
    SystemCallError :=
  match c with
  | .opendir => zw_syserr_fail_path "opendir" err path
  | .readdir => zw_syserr_fail_path "readdir" err path
  | .dirfd => zw_syserr_fail_path "dirfd" err path
  | .fstatat d_name => zw_syserr_fail_dir_entry "fstatat" err path (freed d_name)
  | .closedir => zw_syserr_fail_path "closedir" err path

/-- What reading an entry name after the close yields on the stream `opendir path` opens
(the identity when nothing is opened, as then no entry is ever read). -/
def freedName (w : World) (path : CStr) : CStr → CStr :=
  match w.opendir path with
  | .ok d => d.freed_d_name
  | .error _ => fun name => name

/-- The world in which `opendir` yields the stream `d`, whatever the path. -/
def onDir (d : DIR) : World := ⟨fun _ => .ok d⟩

/-! ## Auxiliary definitions for the proofs -/

/-- The events of an iteration that gets through the type resolution. -/
def iterEvents (e : dirent) (dfd : Int) : List Event :=
  if e.d_name.head? = some '.' then []
  else if e.d_type = DT_UNKNOWN ∨ e.d_type = DT_LNK then
    (if dfd < 0 then [⟨.dirfd, none⟩] else []) ++ [⟨.fstatat e.d_name, none⟩]
  else []

/-- The descriptor variable after an iteration that gets through the type resolution. -/
def iterDfd (d : DIR) (e : dirent) (dfd : Int) : Int :=
  if e.d_name.head? = some '.' then dfd
  else if e.d_type = DT_UNKNOWN ∨ e.d_type = DT_LNK then d.dirfd
  else dfd

/-- Events that all succeeded, none of them a `closedir`. -/
def OkEvents (ev : List Event) : Prop := ∀ x ∈ ev, x.err = none ∧ x.call ≠ .closedir

/-! ## Concrete directories -/

/-- The scenario of the specification: `.hidden`, `a.rb`, `b.txt`, the directory `sub` and the
symbolic link `sub.rb` to a directory. -/
def dirScenario : DIR :=
  { entries := [⟨".hidden".toList, DT_REG⟩, ⟨"a.rb".toList, DT_REG⟩, ⟨"b.txt".toList, DT_REG⟩,
      ⟨"sub".toList, DT_DIR⟩, ⟨"sub.rb".toList, DT_LNK⟩],
    readdir_errno := 0, dirfd := 3, dirfd_errno := 0,
    fstatat := fun _ _ => .ok S_IFDIR, closedir := none,
    freed_d_name := fun name => name }

/-- A directory holding one symbolic link to a regular file, on which every call succeeds
except `dirfd`, which returns `-1` with `errno` 9. -/
def dirNoDescriptor : DIR :=
  { entries := [⟨"a.rb".toList, DT_LNK⟩],
    readdir_errno := 0, dirfd := -1, dirfd_errno := 9,
    fstatat := fun _ _ => .ok S_IFREG, closedir := none,
    freed_d_name := fun name => name }

/-- A directory holding one hidden regular file whose name ends in `.rb`. -/
def dirHiddenRb : DIR :=
  { entries := [⟨".x".toList ++ ".rb".toList, DT_REG⟩],
    readdir_errno := 0, dirfd := 3, dirfd_errno := 0,
    fstatat := fun _ _ => .ok S_IFREG, closedir := none,
    freed_d_name := fun name => name }

/-- A directory whose entries are `.`, `..` and the hidden subdirectory `.git`. -/
def dirDots : DIR :=
  { entries := [⟨".".toList, DT_DIR⟩, ⟨"..".toList, DT_DIR⟩, ⟨".git".toList, DT_DIR⟩],
    readdir_errno := 0, dirfd := 3, dirfd_errno := 0,
    fstatat := fun _ _ => .ok S_IFDIR, closedir := none,
    freed_d_name := fun name => name }

/-- A directory with a symbolic link `link.rb` to a regular file; every other status query
reports a directory. -/
def dirLinks : DIR :=
  { entries := [⟨"a.rb".toList, DT_REG⟩, ⟨"link.rb".toList, DT_LNK⟩, ⟨"sub".toList, DT_DIR⟩],
    readdir_errno := 0, dirfd := 3, dirfd_errno := 0,
    fstatat := fun _ n => if n = "link.rb".toList then .ok S_IFREG else .ok S_IFDIR,
    closedir := none,
    freed_d_name := fun name => name }

/-- A directory whose third entry is a dangling symbolic link (the status query fails with
`errno` 2), and whose `closedir` fails with `errno` 5. -/
def dirDangling : DIR :=
  { entries := [⟨"a.rb".toList, DT_REG⟩, ⟨"good".toList, DT_LNK⟩, ⟨"dangling".toList, DT_LNK⟩,
      ⟨"z.rb".toList, DT_REG⟩],
    readdir_errno := 0, dirfd := 3, dirfd_errno := 0,
    fstatat := fun _ n => if n = "dangling".toList then .error 2 else .ok S_IFDIR,
    closedir := some 5,
    freed_d_name := fun name => name }

/-- The directory `dirDangling` with a succeeding `closedir`, after which the released buffer
no longer holds the entry name: the first byte found at `entry->d_name` is NUL. -/
def dirDanglingReleased : DIR :=
  { entries := [⟨"a.rb".toList, DT_REG⟩, ⟨"good".toList, DT_LNK⟩, ⟨"dangling".toList, DT_LNK⟩,
      ⟨"z.rb".toList, DT_REG⟩],
    readdir_errno := 0, dirfd := 3, dirfd_errno := 0,
    fstatat := fun _ n => if n = "dangling".toList then .error 2 else .ok S_IFDIR,
    closedir := none,
    freed_d_name := fun _ => [] }

/-- A directory that holds only hidden entries: `.`, `..`, a hidden dangling symbolic link and
a hidden entry of unknown type; `dirfd` and every status query would fail. -/
def dirOnlyHidden : DIR :=
  { entries := [⟨".".toList, DT_DIR⟩, ⟨"..".toList, DT_DIR⟩, ⟨".dangling".toList, DT_LNK⟩,
      ⟨".cache.rb".toList, DT_UNKNOWN⟩],
    readdir_errno := 0, dirfd := -1, dirfd_errno := 9,
    fstatat := fun _ _ => .error 2, closedir := none,
    freed_d_name := fun name => name }

/-- A directory holding one entry of unknown type, on which `dirfd` returns `-1` with `errno`
9 and `closedir` fails with `errno` 5; the open, every status query and the terminating read
succeed. -/
def dirCloseFails : DIR :=
  { entries := [⟨"lib".toList, DT_UNKNOWN⟩],
    readdir_errno := 0, dirfd := -1, dirfd_errno := 9,
    fstatat := fun _ _ => .ok S_IFDIR, closedir := some 5,
    freed_d_name := fun name => name }

/-- A directory of two listed entries whose `closedir` fails with `errno` 5. -/
def dirBadClose : DIR :=
  { entries := [⟨"a.rb".toList, DT_REG⟩, ⟨"sub".toList, DT_UNKNOWN⟩],
    readdir_errno := 0, dirfd := 3, dirfd_errno := 0,
    fstatat := fun _ _ => .ok S_IFDIR, closedir := some 5,
    freed_d_name := fun name => name }

/-! ## Lemmas on the code -/

theorem at_zero_eq_dot (name : CStr) : (name.at 0 == '.') = true ↔ name.head? = some '.' := by
  cases name with
  | nil => simp [CStr.at]
  | cons c cs => simp [CStr.at]

theorem at_append_right (p s : CStr) (i : Nat) :
    CStr.at (p ++ s) (p.length + i) = CStr.at s i := by
  simp [CStr.at, List.getD_eq_getElem?_getD, List.getElem?_append_right]

theorem has_rb_append (p : CStr) (a b c : Char) :
    zw_has_rb_extension (p ++ [a, b, c]) (p.length + 3) =
      (decide (0 < p.length) && a == '.' && b == 'r' && c == 'b') := by
  have h0 := at_append_right p [a, b, c] 0
  have h1 := at_append_right p [a, b, c] 1
  have h2 := at_append_right p [a, b, c] 2
  simp only [zw_has_rb_extension]
  have e3 : p.length + 3 - 3 = p.length + 0 := by omega
  have e2 : p.length + 3 - 2 = p.length + 1 := by omega
  have e1 : p.length + 3 - 1 = p.length + 2 := by omega
  rw [e3, e2, e1, h0, h1, h2]
  simp [CStr.at]

theorem has_rb_iff (name : CStr) :
    zw_has_rb_extension name (strlen name) = true ↔
      3 < name.length ∧ ".rb".toList <:+ name := by
  constructor
  · intro h
    have hlen : 3 < name.length := by
      simp [zw_has_rb_extension, strlen] at h
      exact h.1.1.1
    refine ⟨hlen, ?_⟩
    obtain ⟨p, s, hps, hs⟩ : ∃ p s : CStr, name = p ++ s ∧ s.length = 3 :=
      ⟨name.take (name.length - 3), name.drop (name.length - 3),
        (List.take_append_drop _ _).symm, by simp; omega⟩
    match s, hs with
    | [a, b, c], _ =>
      subst hps
      have hl : strlen (p ++ [a, b, c]) = p.length + 3 := by simp [strlen]
      rw [hl, has_rb_append] at h
      simp at h
      obtain ⟨⟨⟨_, ha⟩, hb⟩, hc⟩ := h
      subst ha hb hc
      exact ⟨p, rfl⟩
  · rintro ⟨hlen, p, hp⟩
    subst hp
    have hl : strlen (p ++ ".rb".toList) = p.length + 3 := by simp [strlen]
    have : (".rb".toList : CStr) = ['.', 'r', 'b'] := rfl
    rw [hl, this, has_rb_append]
    simp at hlen
    simp
    omega

/-- The push of lines 98-107 appends what the specification emits for the pushed type. -/
theorem push_reported (e : dirent) (type : Nat) (result : List Tuple) :
    zw_push_entry e type result = result ++ (emitKind e.d_name (reportedKind type)).toList := by
  unfold zw_push_entry reportedKind
  by_cases h1 : type = DT_REG
  · have hb : zw_has_rb_extension e.d_name e.d_name.length = true ↔
        3 < e.d_name.length ∧ ".rb".toList <:+ e.d_name := has_rb_iff e.d_name
    subst h1
    simp only [strlen, emitKind]
    by_cases h2 : 3 < e.d_name.length ∧ ".rb".toList <:+ e.d_name
    · simp only [beq_self_eq_true, if_true, hb.2 h2, if_pos h2, List.take_length,
        Option.toList_some]
    · have hf : zw_has_rb_extension e.d_name e.d_name.length = false := by
        cases h : zw_has_rb_extension e.d_name e.d_name.length
        · rfl
        · exact absurd (hb.1 h) h2
      simp only [beq_self_eq_true, if_true, hf, if_neg h2, Option.toList_none, List.append_nil]
      simp
  · by_cases h2 : type = DT_DIR
    · subst h2
      have hne : (DT_DIR == DT_REG) = false := by decide
      simp only [hne, if_neg h1, beq_self_eq_true, if_true, emitKind, Option.toList_some]
      simp
    · have hne1 : (type == DT_REG) = false := by simpa using h1
      have hne2 : (type == DT_DIR) = false := by simpa using h2
      simp only [hne1, hne2, if_neg h1, if_neg h2, emitKind, Option.toList_none,
        List.append_nil]
      simp

theorem resolved_type_kind (st_mode type : Nat) (h : type = DT_UNKNOWN ∨ type = DT_LNK) :
    reportedKind (if S_ISREG st_mode then DT_REG else if S_ISDIR st_mode then DT_DIR else type)
      = statKind st_mode := by
  unfold reportedKind statKind
  cases S_ISREG st_mode <;> cases S_ISDIR st_mode <;> rcases h with h | h <;> subst h <;> decide

theorem needs_stat_iff (type : Nat) :
    (type == DT_UNKNOWN || type == DT_LNK) = true ↔ (type = DT_UNKNOWN ∨ type = DT_LNK) := by
  simp

/-- A hidden entry is skipped: nothing is classified, pushed or called. -/
theorem iteration_hidden (d : DIR) (path : CStr) (e : dirent) (dfd : Int)
    (result : List Tuple) (tr : List Event) (h : e.d_name.head? = some '.') :
    zw_iteration d path e dfd result tr = .next dfd result tr := by
  unfold zw_iteration
  rw [if_pos ((at_zero_eq_dot _).2 h)]

/-- An entry whose reported type needs no status query is pushed by its reported type. -/
theorem iteration_reported (d : DIR) (path : CStr) (e : dirent) (dfd : Int)
    (result : List Tuple) (tr : List Event) (hv : e.d_name.head? ≠ some '.')
    (hn : ¬ (e.d_type = DT_UNKNOWN ∨ e.d_type = DT_LNK)) :
    zw_iteration d path e dfd result tr =
      .next dfd (result ++ (emitted d e).toList) tr := by
  unfold zw_iteration
  rw [if_neg (fun h => hv ((at_zero_eq_dot _).1 h))]
  simp only []
  rw [if_neg (fun h => hn ((needs_stat_iff _).1 h)), push_reported]
  simp only [emitted, if_neg hv, resolvedKind, if_neg hn]

/-- The status query of lines 84-107 on the directory descriptor, when it succeeds. -/
theorem fstatat_entry_ok (d : DIR) (path : CStr) (e : dirent)
    (result : List Tuple) (tr : List Event) (st_mode : Nat)
    (hv : e.d_name.head? ≠ some '.')
    (hn : e.d_type = DT_UNKNOWN ∨ e.d_type = DT_LNK)
    (hs : d.fstatat d.dirfd e.d_name = .ok st_mode) :
    zw_fstatat_entry d path e e.d_type d.dirfd result tr =
      .next d.dirfd (result ++ (emitted d e).toList) (tr ++ [⟨.fstatat e.d_name, none⟩]) := by
  unfold zw_fstatat_entry
  rw [hs]
  simp only []
  rw [push_reported, resolved_type_kind _ _ hn]
  simp only [emitted, if_neg hv, resolvedKind, if_pos hn, hs]

/-- An iteration on an entry that gets through the type resolution reaches the end of the
body, having pushed what the specification emits. -/
theorem iteration_resolves (d : DIR) (path : CStr) (e : dirent) (dfd : Int)
    (result : List Tuple) (tr : List Event)
    (hd : dfd < 0 ∨ dfd = d.dirfd) (hr : Resolves d e) :
    zw_iteration d path e dfd result tr =
      .next (iterDfd d e dfd) (result ++ (emitted d e).toList) (tr ++ iterEvents e dfd) := by
  by_cases hv : e.d_name.head? = some '.'
  · rw [iteration_hidden d path e dfd result tr hv]
    simp [iterDfd, iterEvents, emitted, hv]
  · by_cases hn : e.d_type = DT_UNKNOWN ∨ e.d_type = DT_LNK
    · obtain ⟨h0, st_mode, hs⟩ := hr hv hn
      have hq := fstatat_entry_ok d path e result
      unfold zw_iteration
      rw [if_neg (fun h => hv ((at_zero_eq_dot _).1 h))]
      simp only []
      rw [if_pos ((needs_stat_iff _).2 hn)]
      by_cases hneg : dfd < 0
      · rw [if_pos hneg, if_neg (not_lt.2 h0), hq _ st_mode hv hn hs]
        simp [iterDfd, iterEvents, hv, hn, hneg]
      · have hdd : dfd = d.dirfd := hd.resolve_left hneg
        rw [if_neg hneg, hdd, hq _ st_mode hv hn hs]
        have : ¬ d.dirfd < 0 := not_lt.2 h0
        simp [iterDfd, iterEvents, hv, hn, this]
    · rw [iteration_reported d path e dfd result tr hv hn]
      simp [iterDfd, iterEvents, hv, hn]

theorem iterDfd_inv (d : DIR) (e : dirent) (dfd : Int) (hd : dfd < 0 ∨ dfd = d.dirfd) :
    iterDfd d e dfd < 0 ∨ iterDfd d e dfd = d.dirfd := by
  unfold iterDfd
  split
  · exact hd
  · split
    · exact Or.inr rfl
    · exact hd

theorem iterEvents_ok (e : dirent) (dfd : Int) :
    ∀ x ∈ iterEvents e dfd, x.err = none ∧ x.call ≠ .closedir ∧ x.call ≠ .opendir ∧
      x.call ≠ .readdir := by
  intro x hx
  unfold iterEvents at hx
  split at hx
  · simp at hx
  · split at hx
    · split at hx <;> simp at hx
      · rcases hx with rfl | rfl <;> simp
      · subst hx; simp
    · simp at hx

theorem iterEvents_hidden (e : dirent) (dfd : Int) (h : e.d_name.head? = some '.') :
    iterEvents e dfd = [] := by
  simp [iterEvents, h]

/-- The loop over a prefix of entries that all get through the type resolution: it reaches the
rest of the stream with the emitted tuples pushed, one successful `readdir` per entry, and no
failed call. -/
theorem loop_prefix (d : DIR) (path : CStr) (pre rest : List dirent) :
    ∀ (dfd : Int) (result : List Tuple) (tr : List Event),
      (dfd < 0 ∨ dfd = d.dirfd) → (∀ e ∈ pre, Resolves d e) →
      ∃ dfd1 ev, (dfd1 < 0 ∨ dfd1 = d.dirfd) ∧
        zw_loop d path (pre ++ rest) dfd result tr =
          zw_loop d path rest dfd1 (result ++ pre.filterMap (emitted d)) (tr ++ ev) ∧
        (ev.filter (fun x => decide (x.call = .readdir))).length = pre.length ∧
        (∀ x ∈ ev, x.err = none ∧ x.call ≠ .closedir ∧ x.call ≠ .opendir) ∧
        ((∀ e ∈ pre, e.d_name.head? = some '.') → ∀ x ∈ ev, x.call = .readdir) := by
  induction pre with
  | nil =>
    intro dfd result tr hd _
    exact ⟨dfd, [], hd, by simp, by simp, by simp, by simp⟩
  | cons e es ih =>
    intro dfd result tr hd hr
    have he : Resolves d e := hr e (List.mem_cons_self _ _)
    have hes : ∀ x ∈ es, Resolves d x := fun x hx => hr x (List.mem_cons_of_mem _ hx)
    obtain ⟨dfd1, ev, h1, h2, h3, h4, h5⟩ :=
      ih (iterDfd d e dfd) (result ++ (emitted d e).toList)
        (tr ++ [⟨.readdir, none⟩] ++ iterEvents e dfd) (iterDfd_inv d e dfd hd) hes
    refine ⟨dfd1, [⟨.readdir, none⟩] ++ iterEvents e dfd ++ ev, h1, ?_, ?_, ?_, ?_⟩
    · rw [List.cons_append, zw_loop, iteration_resolves d path e dfd result _ hd he]
      simp only []
      rw [h2]
      have : result ++ (emitted d e).toList ++ List.filterMap (emitted d) es =
          result ++ List.filterMap (emitted d) (e :: es) := by
        rw [List.filterMap_cons]
        cases emitted d e <;> simp
      rw [this]
      simp [List.append_assoc]
    · have hz : (iterEvents e dfd).filter (fun x => decide (x.call = .readdir)) = [] := by
        rw [List.filter_eq_nil_iff]
        intro x hx
        simpa using (iterEvents_ok e dfd x hx).2.2.2
      simp [List.filter_append, hz, h3]
    · intro x hx
      simp only [List.mem_append, List.mem_singleton] at hx
      rcases hx with (rfl | hx) | hx
      · simp
      · exact ⟨(iterEvents_ok e dfd x hx).1, (iterEvents_ok e dfd x hx).2.1,
          (iterEvents_ok e dfd x hx).2.2.1⟩
      · exact h4 x hx
    · intro hh x hx
      have hhe := hh e (List.mem_cons_self _ _)
      rw [iterEvents_hidden e dfd hhe] at hx
      simp only [List.mem_append, List.mem_singleton, List.append_nil] at hx
      rcases hx with rfl | hx
      · rfl
      · exact h5 (fun y hy => hh y (List.mem_cons_of_mem _ hy)) x hx

/-- The body fails on `dirfd` when the descriptor is needed and cannot be obtained. -/
theorem iteration_dirfd_fails (d : DIR) (path : CStr) (e : dirent) (dfd : Int)
    (result : List Tuple) (tr : List Event) (hd : dfd < 0 ∨ dfd = d.dirfd)
    (hv : e.d_name.head? ≠ some '.') (hn : e.d_type = DT_UNKNOWN ∨ e.d_type = DT_LNK)
    (hneg : d.dirfd < 0) :
    zw_iteration d path e dfd result tr =
      .raised (zw_syserr_fail_path "dirfd" d.dirfd_errno path)
        (tr ++ [⟨.dirfd, some d.dirfd_errno⟩, ⟨.closedir, d.closedir⟩]) := by
  have hdfd : dfd < 0 := by
    rcases hd with h | h
    · exact h
    · rw [h]; exact hneg
  unfold zw_iteration
  rw [if_neg (fun h => hv ((at_zero_eq_dot _).1 h))]
  simp only []
  rw [if_pos ((needs_stat_iff _).2 hn), if_pos hdfd, if_pos hneg]

/-- The body fails on `fstatat` when the status query on the obtained descriptor fails. -/
theorem iteration_fstatat_fails (d : DIR) (path : CStr) (e : dirent) (dfd : Int)
    (result : List Tuple) (tr : List Event) (err : Nat) (hd : dfd < 0 ∨ dfd = d.dirfd)
    (hv : e.d_name.head? ≠ some '.') (hn : e.d_type = DT_UNKNOWN ∨ e.d_type = DT_LNK)
    (h0 : 0 ≤ d.dirfd) (hs : d.fstatat d.dirfd e.d_name = .error err) :
    zw_iteration d path e dfd result tr =
      .raised (zw_syserr_fail_dir_entry "fstatat" err path (d.freed_d_name e.d_name))
        (tr ++ (if dfd < 0 then [⟨.dirfd, none⟩] else []) ++
          [⟨.fstatat e.d_name, some err⟩, ⟨.closedir, d.closedir⟩]) := by
  unfold zw_iteration
  rw [if_neg (fun h => hv ((at_zero_eq_dot _).1 h))]
  simp only []
  rw [if_pos ((needs_stat_iff _).2 hn)]
  by_cases hneg : dfd < 0
  · rw [if_pos hneg, if_neg (not_lt.2 h0)]
    unfold zw_fstatat_entry
    rw [hs]
    simp [hneg]
  · have hdd : dfd = d.dirfd := hd.resolve_left hneg
    rw [if_neg hneg]
    unfold zw_fstatat_entry
    rw [hdd, hs]
    simp [not_lt.2 h0]

/-- An entry that does not get through the type resolution makes the body raise. -/
theorem iteration_raises (d : DIR) (path : CStr) (e : dirent) (dfd : Int)
    (result : List Tuple) (tr : List Event) (hd : dfd < 0 ∨ dfd = d.dirfd)
    (hr : ¬ Resolves d e) :
    ∃ err tr1, zw_iteration d path e dfd result tr = .raised err tr1 := by
  unfold Resolves at hr
  push_neg at hr
  obtain ⟨hv, hn, hq⟩ := hr
  by_cases hneg : d.dirfd < 0
  · exact ⟨_, _, iteration_dirfd_fails d path e dfd result tr hd hv hn hneg⟩
  · have h0 : 0 ≤ d.dirfd := not_lt.1 hneg
    cases hs : d.fstatat d.dirfd e.d_name with
    | ok m => exact absurd hs (hq h0 m)
    | error err =>
      exact ⟨_, _, iteration_fstatat_fails d path e dfd result tr err hd hv hn h0 hs⟩

/-- The loop raises as soon as one entry does not get through the type resolution. -/
theorem loop_raises (d : DIR) (path : CStr) (es : List dirent) :
    ∀ (dfd : Int) (result : List Tuple) (tr : List Event),
      (dfd < 0 ∨ dfd = d.dirfd) → (∃ e ∈ es, ¬ Resolves d e) →
      ∃ err tr1, zw_loop d path es dfd result tr = .raised err tr1 := by
  induction es with
  | nil => intro _ _ _ _ h; simp at h
  | cons e es ih =>
    intro dfd result tr hd h
    by_cases he : Resolves d e
    · have hrest : ∃ x ∈ es, ¬ Resolves d x := by
        obtain ⟨x, hx, hnx⟩ := h
        rcases List.mem_cons.1 hx with rfl | hx
        · exact absurd he hnx
        · exact ⟨x, hx, hnx⟩
      rw [zw_loop, iteration_resolves d path e dfd result _ hd he]
      exact ih _ _ _ (iterDfd_inv d e dfd hd) hrest
    · obtain ⟨err, tr1, hit⟩ := iteration_raises d path e dfd result (tr ++ [⟨.readdir, none⟩]) hd he
      exact ⟨err, tr1, by rw [zw_loop, hit]⟩

theorem okEvents_append {a b : List Event} (ha : OkEvents a) (hb : OkEvents b) :
    OkEvents (a ++ b) := by
  intro x hx
  rcases List.mem_append.1 hx with h | h
  · exact ha x h
  · exact hb x h

/-- The shape of the trace of one pass through the body. -/
theorem iteration_shape (d : DIR) (path : CStr) (e : dirent) (dfd : Int)
    (result : List Tuple) (tr : List Event) :
    (∀ dfd1 r1 tr1, zw_iteration d path e dfd result tr = .next dfd1 r1 tr1 →
      ∃ ev, tr1 = tr ++ ev ∧ OkEvents ev) ∧
    (∀ err tr1, zw_iteration d path e dfd result tr = .raised err tr1 →
      ∃ ev c en, tr1 = tr ++ ev ++ [⟨c, some en⟩, ⟨.closedir, d.closedir⟩] ∧ OkEvents ev ∧
        (c = .dirfd ∨ c = .fstatat e.d_name) ∧ err = taxonomy d.freed_d_name c en path) := by
  have hq : ∀ (fd : Int) (t : List Event), OkEvents t →
      (∀ dfd1 r1 tr1, zw_fstatat_entry d path e e.d_type fd result (tr ++ t) = .next dfd1 r1 tr1 →
        ∃ ev, tr1 = tr ++ ev ∧ OkEvents ev) ∧
      (∀ err tr1, zw_fstatat_entry d path e e.d_type fd result (tr ++ t) = .raised err tr1 →
        ∃ ev c en, tr1 = tr ++ ev ++ [⟨c, some en⟩, ⟨.closedir, d.closedir⟩] ∧ OkEvents ev ∧
          (c = .dirfd ∨ c = .fstatat e.d_name) ∧ err = taxonomy d.freed_d_name c en path) := by
    intro fd t ht
    unfold zw_fstatat_entry
    cases d.fstatat fd e.d_name with
    | error en =>
      refine ⟨fun _ _ _ h => by simp at h, fun err tr1 h => ?_⟩
      simp only [IterExit.raised.injEq] at h
      exact ⟨t, .fstatat e.d_name, en, h.2.symm, ht, Or.inr rfl, h.1.symm⟩
    | ok m =>
      refine ⟨fun dfd1 r1 tr1 h => ?_, fun _ _ h => by simp at h⟩
      simp only [IterExit.next.injEq] at h
      refine ⟨t ++ [⟨.fstatat e.d_name, none⟩], by rw [← h.2.2, List.append_assoc], ?_⟩
      exact okEvents_append ht (by intro x hx; simp at hx; subst hx; simp)
  have hnil : OkEvents [] := by intro x hx; simp at hx
  unfold zw_iteration
  split
  · refine ⟨fun dfd1 r1 tr1 h => ?_, fun _ _ h => by simp at h⟩
    simp only [IterExit.next.injEq] at h
    exact ⟨[], by simp [h.2.2], hnil⟩
  · simp only []
    split
    · split
      · split
        · refine ⟨fun _ _ _ h => by simp at h, fun err tr1 h => ?_⟩
          simp only [IterExit.raised.injEq] at h
          exact ⟨[], .dirfd, d.dirfd_errno, by simp [← h.2], hnil, Or.inl rfl, h.1.symm⟩
        · exact hq d.dirfd [⟨.dirfd, none⟩] (by intro x hx; simp at hx; subst hx; simp)
      · have := hq dfd [] hnil
        rw [List.append_nil] at this
        exact this
    · refine ⟨fun dfd1 r1 tr1 h => ?_, fun _ _ h => by simp at h⟩
      simp only [IterExit.next.injEq] at h
      exact ⟨[], by simp [h.2.2], hnil⟩

/-- The shape of the trace of the loop. -/
theorem loop_shape (d : DIR) (path : CStr) (es : List dirent) :
    ∀ (dfd : Int) (result : List Tuple) (tr : List Event),
      (∀ errno r tr1, zw_loop d path es dfd result tr = .broke errno r tr1 →
        errno = d.readdir_errno ∧ ∃ ev, OkEvents ev ∧ tr1 = tr ++ ev ++
          [⟨.readdir, if d.readdir_errno = 0 then none else some d.readdir_errno⟩]) ∧
      (∀ err tr1, zw_loop d path es dfd result tr = .raised err tr1 →
        ∃ ev c en, tr1 = tr ++ ev ++ [⟨c, some en⟩, ⟨.closedir, d.closedir⟩] ∧ OkEvents ev ∧
          (c = .dirfd ∨ ∃ n, c = .fstatat n) ∧ err = taxonomy d.freed_d_name c en path) := by
  induction es with
  | nil =>
    intro dfd result tr
    refine ⟨fun errno r tr1 h => ?_, fun _ _ h => by simp [zw_loop] at h⟩
    simp only [zw_loop, LoopExit.broke.injEq] at h
    exact ⟨h.1.symm, [], by intro x hx; simp at hx, by simp [← h.2.2]⟩
  | cons e es ih =>
    intro dfd result tr
    have hrd : OkEvents [(⟨.readdir, none⟩ : Event)] := by
      intro x hx; simp at hx; subst hx; simp
    have hit := iteration_shape d path e dfd result (tr ++ [⟨.readdir, none⟩])
    rw [zw_loop]
    cases hz : zw_iteration d path e dfd result (tr ++ [⟨.readdir, none⟩]) with
    | next dfd1 r1 tr1 =>
      obtain ⟨ev1, htr1, hok1⟩ := hit.1 dfd1 r1 tr1 hz
      simp only []
      constructor
      · intro errno r tr2 h
        obtain ⟨he, ev2, hok2, htr2⟩ := (ih dfd1 r1 tr1).1 errno r tr2 h
        refine ⟨he, [⟨.readdir, none⟩] ++ ev1 ++ ev2,
          okEvents_append (okEvents_append hrd hok1) hok2, ?_⟩
        rw [htr2, htr1]
        simp [List.append_assoc]
      · intro err tr2 h
        obtain ⟨ev2, c, en, htr2, hok2, hc, herr⟩ := (ih dfd1 r1 tr1).2 err tr2 h
        refine ⟨[⟨.readdir, none⟩] ++ ev1 ++ ev2, c, en, ?_,
          okEvents_append (okEvents_append hrd hok1) hok2, hc, herr⟩
        rw [htr2, htr1]
        simp [List.append_assoc]
    | raised err1 tr1 =>
      obtain ⟨ev1, c, en, htr1, hok1, hc, herr⟩ := hit.2 err1 tr1 hz
      simp only []
      refine ⟨fun _ _ _ h => by simp at h, fun err tr2 h => ?_⟩
      simp only [LoopExit.raised.injEq] at h
      refine ⟨[⟨.readdir, none⟩] ++ ev1, c, en, ?_, okEvents_append hrd hok1, ?_, ?_⟩
      · rw [← h.2, htr1]
        simp [List.append_assoc]
      · rcases hc with hc | hc
        · exact Or.inl hc
        · exact Or.inr ⟨_, hc⟩
      · rw [← h.1, herr]

/-- The three ways a run goes once the directory is open: it returns the array after a
successful `closedir`; a call before `closedir` fails, the stream is closed and the failure
raised; or only `closedir` fails. -/
theorem run_shape (w : World) (path : CStr) (d : DIR) (ho : w.opendir path = .ok d) :
    ∃ ev, OkEvents ev ∧
      ((∃ r, d.closedir = none ∧ (zw_filtered_dir_entries_with_type w path).outcome = .ok r ∧
          (zw_filtered_dir_entries_with_type w path).trace = ev ++ [⟨.closedir, none⟩]) ∨
       (∃ c en, c ≠ .closedir ∧ c ≠ .opendir ∧
          (zw_filtered_dir_entries_with_type w path).outcome =
            .error (taxonomy d.freed_d_name c en path) ∧
          (zw_filtered_dir_entries_with_type w path).trace =
            ev ++ [⟨c, some en⟩, ⟨.closedir, d.closedir⟩]) ∨
       (∃ en, d.closedir = some en ∧ (zw_filtered_dir_entries_with_type w path).outcome =
            .error (taxonomy d.freed_d_name .closedir en path) ∧
          (zw_filtered_dir_entries_with_type w path).trace = ev ++ [⟨.closedir, some en⟩])) := by
  have hop : OkEvents [(⟨.opendir, none⟩ : Event)] := by
    intro x hx; simp at hx; subst hx; simp
  have hsh := loop_shape d path d.entries (-1) [] [⟨.opendir, none⟩]
  unfold zw_filtered_dir_entries_with_type
  simp only [ho]
  cases hz : zw_loop d path d.entries (-1) [] [⟨.opendir, none⟩] with
  | raised err tr1 =>
    obtain ⟨ev, c, en, htr, hok, hc, herr⟩ := hsh.2 err tr1 hz
    refine ⟨[⟨.opendir, none⟩] ++ ev, okEvents_append hop hok, Or.inr (Or.inl ⟨c, en, ?_, ?_, ?_, ?_⟩)⟩
    · rcases hc with rfl | ⟨n, rfl⟩ <;> simp
    · rcases hc with rfl | ⟨n, rfl⟩ <;> simp
    · simp [herr]
    · simp [htr]
  | broke errno r tr1 =>
    obtain ⟨he, ev, hok, htr⟩ := hsh.1 errno r tr1 hz
    subst he
    simp only []
    by_cases h0 : d.readdir_errno = 0
    · have hrd : OkEvents [(⟨.readdir, none⟩ : Event)] := by
        intro x hx; simp at hx; subst hx; simp
      rw [if_pos h0] at htr
      refine ⟨[⟨.opendir, none⟩] ++ ev ++ [⟨.readdir, none⟩],
        okEvents_append (okEvents_append hop hok) hrd, ?_⟩
      rw [if_neg (not_not.2 h0)]
      cases hc : d.closedir with
      | none => exact Or.inl ⟨r, rfl, rfl, by simp [htr]⟩
      | some en => exact Or.inr (Or.inr ⟨en, rfl, rfl, by simp [htr]⟩)
    · rw [if_neg h0] at htr
      refine ⟨[⟨.opendir, none⟩] ++ ev, okEvents_append hop hok,
        Or.inr (Or.inl ⟨.readdir, d.readdir_errno, by simp, by simp, ?_, ?_⟩)⟩
      · rw [if_pos h0]; rfl
      · rw [if_pos h0]; simp [htr]

/-- When every entry gets through the type resolution the loop is left by `break`, with the
sequence of the specification in the array. -/
theorem loop_all_resolve (d : DIR) (path : CStr) (es : List dirent) (dfd : Int)
    (result : List Tuple) (tr : List Event) (hd : dfd < 0 ∨ dfd = d.dirfd)
    (hr : ∀ e ∈ es, Resolves d e) :
    ∃ ev, zw_loop d path es dfd result tr =
        .broke d.readdir_errno (result ++ es.filterMap (emitted d))
          (tr ++ ev ++ [⟨.readdir, if d.readdir_errno = 0 then none else some d.readdir_errno⟩]) ∧
      (ev.filter (fun x => decide (x.call = .readdir))).length = es.length ∧
      (∀ x ∈ ev, x.err = none ∧ x.call ≠ .closedir ∧ x.call ≠ .opendir) ∧
      ((∀ e ∈ es, e.d_name.head? = some '.') → ∀ x ∈ ev, x.call = .readdir) := by
  obtain ⟨dfd1, ev, _, h2, h3, h4, h5⟩ := loop_prefix d path es [] dfd result tr hd hr
  refine ⟨ev, ?_, h3, h4, h5⟩
  rw [List.append_nil] at h2
  rw [h2, zw_loop]

/-- Success of the listing, in terms of the world: it returns exactly when every entry gets
through the type resolution, the terminating read reports end-of-stream and the close
succeeds; what it returns is the sequence of the specification. -/
theorem list_ok_iff (w : World) (path : CStr) (d : DIR) (ho : w.opendir path = .ok d)
    (r : List Tuple) :
    list w path = .ok r ↔
      (∀ e ∈ d.entries, Resolves d e) ∧ d.readdir_errno = 0 ∧ d.closedir = none ∧
        r = listing d := by
  have hinit : (-1 : Int) < 0 ∨ (-1 : Int) = d.dirfd := Or.inl (by decide)
  constructor
  · intro h
    by_cases hall : ∀ e ∈ d.entries, Resolves d e
    · obtain ⟨ev, hl, -⟩ := loop_all_resolve d path d.entries (-1) [] [⟨.opendir, none⟩] hinit hall
      unfold list zw_filtered_dir_entries_with_type at h
      simp only [ho, hl] at h
      by_cases h0 : d.readdir_errno = 0
      · rw [if_neg (not_not.2 h0)] at h
        cases hc : d.closedir with
        | none =>
          rw [hc] at h
          simp only [Except.ok.injEq, List.nil_append] at h
          exact ⟨hall, h0, rfl, h.symm⟩
        | some en => rw [hc] at h; simp at h
      · rw [if_pos h0] at h; simp at h
    · have hex : ∃ e ∈ d.entries, ¬ Resolves d e := by
        push_neg at hall; exact hall
      obtain ⟨err, tr1, hl⟩ := loop_raises d path d.entries (-1) [] [⟨.opendir, none⟩] hinit hex
      unfold list zw_filtered_dir_entries_with_type at h
      simp only [ho, hl] at h
      simp at h
  · rintro ⟨hall, h0, hc, rfl⟩
    obtain ⟨ev, hl, -⟩ := loop_all_resolve d path d.entries (-1) [] [⟨.opendir, none⟩] hinit hall
    unfold list zw_filtered_dir_entries_with_type
    simp only [ho, hl]
    rw [if_neg (not_not.2 h0), hc]
    simp [listing]

/-- The listing of a directory whose stream is cut down to the entries `es`. -/
theorem list_restrict_iff (d : DIR) (path : CStr) (es : List dirent) (r : List Tuple) :
    list (onDir { d with entries := es }) path = .ok r ↔
      (∀ e ∈ es, Resolves d e) ∧ d.readdir_errno = 0 ∧ d.closedir = none ∧
        r = es.filterMap (emitted d) :=
  list_ok_iff (onDir { d with entries := es }) path { d with entries := es } rfl r

theorem filterMap_split (d : DIR) (pre post : List dirent) (e : dirent) :
    (pre ++ e :: post).filterMap (emitted d) =
      pre.filterMap (emitted d) ++ (emitted d e).toList ++ post.filterMap (emitted d) := by
  rw [List.filterMap_append, List.filterMap_cons]
  cases emitted d e <;> simp

theorem isreg_not_isdir (st_mode : Nat) (h : S_ISDIR st_mode = true) : S_ISREG st_mode = false := by
  unfold S_ISDIR at h
  unfold S_ISREG
  rw [beq_iff_eq] at h
  rw [h]
  decide

/-- What a status-queried, non-hidden entry emits. -/
theorem emitted_stat (d : DIR) (e : dirent) (st_mode : Nat)
    (hv : e.d_name.head? ≠ some '.') (hn : e.d_type = DT_UNKNOWN ∨ e.d_type = DT_LNK)
    (hs : d.fstatat d.dirfd e.d_name = .ok st_mode) :
    emitted d e = emitKind e.d_name (statKind st_mode) := by
  simp only [emitted, if_neg hv, resolvedKind, if_pos hn, hs]

theorem head_append_rb (X : CStr) (hX : X ≠ []) : (X ++ ".rb".toList).head? = X.head? := by
  cases X with
  | nil => exact absurd rfl hX
  | cons c cs => rfl

/-- A listing is returned only when the directory was opened. -/
theorem list_ok_opened (w : World) (path : CStr) (r : List Tuple) (h : list w path = .ok r) :
    ∃ d, w.opendir path = .ok d := by
  cases ho : w.opendir path with
  | ok d => exact ⟨d, rfl⟩
  | error en =>
    unfold list zw_filtered_dir_entries_with_type at h
    simp only [ho] at h
    simp at h

/-- What the specification emits is well formed. -/
theorem emitted_wf (d : DIR) (e : dirent) (t : Tuple) (h : emitted d e = some t) :
    t.1.head? ≠ some '.' ∧ (t.2 = Sym.file → ".rb".toList <:+ t.1 ∧ 3 < t.1.length) := by
  unfold emitted at h
  split at h
  · simp at h
  · rename_i hv
    cases hk : resolvedKind d e with
    | regular =>
      rw [hk] at h
      simp only [emitKind] at h
      split at h
      · rename_i hrb
        simp only [Option.some.injEq] at h
        subst h
        exact ⟨hv, fun _ => ⟨hrb.2, hrb.1⟩⟩
      · simp at h
    | directory =>
      rw [hk] at h
      simp only [emitKind, Option.some.injEq] at h
      subst h
      exact ⟨hv, fun hf => by simp at hf⟩
    | other =>
      rw [hk] at h
      simp [emitKind] at h

/-- C1 (as stated, refuted): on `dirNoDescriptor` the open succeeds, no status query fails
(any would succeed, and the trace shows that none is issued), the stream ends without a read
error and the close succeeds; the sequence of the claim is `[(a.rb, File)]`, yet the call fails on `dirfd`. -/
theorem C1_descriptor_failure_not_excluded :
    (onDir dirNoDescriptor).opendir "/lib".toList = .ok dirNoDescriptor ∧
    (∀ (dfd : Int) (name : CStr), dirNoDescriptor.fstatat dfd name = .ok S_IFREG) ∧
    (zw_filtered_dir_entries_with_type (onDir dirNoDescriptor) "/lib".toList).trace =
      [⟨.opendir, none⟩, ⟨.readdir, none⟩, ⟨.dirfd, some 9⟩, ⟨.closedir, none⟩] ∧
    dirNoDescriptor.readdir_errno = 0 ∧ dirNoDescriptor.closedir = none ∧
    listing dirNoDescriptor = [("a.rb".toList, Sym.file)] ∧
    list (onDir dirNoDescriptor) "/lib".toList =
      .error (zw_syserr_fail_path "dirfd" 9 "/lib".toList) ∧
    list (onDir dirNoDescriptor) "/lib".toList ≠ .ok (listing dirNoDescriptor) := by
  refine ⟨rfl, fun _ _ => rfl, rfl, rfl, rfl, by decide, rfl, ?_⟩
  · intro h
    have h2 : list (onDir dirNoDescriptor) "/lib".toList =
      .error (zw_syserr_fail_path "dirfd" 9 "/lib".toList) := rfl
    rw [h2] at h
    exact Except.noConfusion h

/-- C1 (amended): for every directory whose open succeeds, whose directory descriptor is
obtained and whose status query succeeds for every non-hidden entry reported as unknown or
symbolic-link, whose stream ends without a read error and whose close succeeds, `list` returns
exactly the sequence of the specification: the raw entries in stream order, hidden ones
dropped, unknown and symbolic-link types replaced by what the status query reports,
`(name, File)` for a regular file whose name is longer than 3 characters and ends in `.rb`,
`(name, Directory)` for a directory, nothing for anything else. -/
theorem C1_list_returns_spec_sequence (w : World) (path : CStr) (d : DIR)
    (ho : w.opendir path = .ok d)
    (hq : ∀ e ∈ d.entries, e.d_name.head? ≠ some '.' →
      (e.d_type = DT_UNKNOWN ∨ e.d_type = DT_LNK) →
        0 ≤ d.dirfd ∧ ∃ st_mode, d.fstatat d.dirfd e.d_name = .ok st_mode)
    (hr : d.readdir_errno = 0) (hc : d.closedir = none) :
    list w path = .ok (d.entries.filterMap (emitted d)) :=
  (list_ok_iff w path d ho _).2 ⟨hq, hr, hc, rfl⟩

/-- C1 (witness): the scenario of the specification. -/
theorem C1_list_returns_spec_sequence_witness :
    list (onDir dirScenario) "/lib".toList =
      .ok [("a.rb".toList, Sym.file), ("sub".toList, Sym.directory),
        ("sub.rb".toList, Sym.directory)] :=
  C1_list_returns_spec_sequence (onDir dirScenario) "/lib".toList dirScenario rfl
    (fun _ _ _ _ => ⟨by decide, S_IFDIR, rfl⟩) rfl rfl

/-- C2 (as stated, refuted): `dirHiddenRb` contains the regular file `.x.rb`, that is `X.rb`
for the non-empty `X = .x`; `list` succeeds on it and returns the empty sequence. -/
theorem C2_hidden_rb_file_not_listed :
    dirHiddenRb.entries = [⟨".x".toList ++ ".rb".toList, DT_REG⟩] ∧
    ".x".toList ≠ [] ∧
    resolvedKind dirHiddenRb ⟨".x".toList ++ ".rb".toList, DT_REG⟩ = Kind.regular ∧
    list (onDir dirHiddenRb) "/lib".toList = .ok [] ∧
    (".x".toList ++ ".rb".toList, Sym.file) ∉ ([] : List Tuple) :=
  ⟨rfl, by decide, by decide, rfl, by simp⟩

/-- C2 (amended): for every non-empty `X` that does not begin with `.` and every directory
that contains a regular file named `X.rb` (reported as such, or reported as unknown or
symbolic-link and found regular by the status query) and on which `list` succeeds, the
returned sequence contains `(X.rb, File)`. -/
theorem C2_rb_file_listed (w : World) (path : CStr) (d : DIR) (X : CStr) (e : dirent)
    (r : List Tuple) (ho : w.opendir path = .ok d) (he : e ∈ d.entries)
    (hname : e.d_name = X ++ ".rb".toList) (hX : X ≠ []) (hdot : X.head? ≠ some '.')
    (hreg : resolvedKind d e = Kind.regular) (hl : list w path = .ok r) :
    (X ++ ".rb".toList, Sym.file) ∈ r := by
  obtain ⟨-, -, -, hr⟩ := (list_ok_iff w path d ho r).1 hl
  have hv : e.d_name.head? ≠ some '.' := by rw [hname, head_append_rb X hX]; exact hdot
  have hlen : 3 < e.d_name.length := by
    have : 0 < X.length := List.length_pos.2 hX
    rw [hname, List.length_append]
    have h3 : (".rb".toList : CStr).length = 3 := rfl
    omega
  have hsuf : ".rb".toList <:+ e.d_name := ⟨X, hname.symm⟩
  have hem : emitted d e = some (X ++ ".rb".toList, Sym.file) := by
    rw [emitted, if_neg hv, hreg]
    simp only [emitKind]
    rw [if_pos (And.intro hlen hsuf), hname]
  rw [hr, listing, List.mem_filterMap]
  exact ⟨e, he, hem⟩

/-- C2 (witness): `a.rb` in the scenario of the specification. -/
theorem C2_rb_file_listed_witness :
    ("a".toList ++ ".rb".toList, Sym.file) ∈
      [("a.rb".toList, Sym.file), ("sub".toList, Sym.directory),
        ("sub.rb".toList, Sym.directory)] :=
  C2_rb_file_listed (onDir dirScenario) "/lib".toList dirScenario "a".toList
    ⟨"a.rb".toList, DT_REG⟩ _ rfl (by decide) rfl (by decide) (by decide) (by decide) rfl

/-- C3 (as stated, refuted): every entry of `dirDots` is a directory (`.`, `..` and `.git`),
`list` succeeds on it, and the returned sequence is empty. -/
theorem C3_hidden_directories_not_listed :
    dirDots.entries = [⟨".".toList, DT_DIR⟩, ⟨"..".toList, DT_DIR⟩, ⟨".git".toList, DT_DIR⟩] ∧
    (∀ e ∈ dirDots.entries, resolvedKind dirDots e = Kind.directory) ∧
    list (onDir dirDots) "/lib".toList = .ok [] ∧
    (".git".toList, Sym.directory) ∉ ([] : List Tuple) :=
  ⟨rfl, by decide, rfl, by simp⟩

/-- C3 (amended): for every directory on which `list` succeeds and every entry of it that is
a directory (reported as such, or reported as unknown or symbolic-link and found to be a
directory by the status query) and whose name does not begin with `.`, the returned sequence
contains `(name, Directory)`; the entry contributes exactly that one pair, between the
listings of the entries before it and after it, with no extension check. -/
theorem C3_directory_listed (w : World) (path : CStr) (d : DIR) (pre post : List dirent)
    (e : dirent) (r : List Tuple) (ho : w.opendir path = .ok d)
    (hent : d.entries = pre ++ e :: post) (hv : e.d_name.head? ≠ some '.')
    (hdir : resolvedKind d e = Kind.directory) (hl : list w path = .ok r) :
    (e.d_name, Sym.directory) ∈ r ∧
    ∃ r1 r2, list (onDir { d with entries := pre }) path = .ok r1 ∧
      list (onDir { d with entries := post }) path = .ok r2 ∧
      r = r1 ++ (e.d_name, Sym.directory) :: r2 := by
  obtain ⟨hall, h0, hc, hr⟩ := (list_ok_iff w path d ho r).1 hl
  have hem : emitted d e = some (e.d_name, Sym.directory) := by
    simp only [emitted, if_neg hv, hdir, emitKind]
  have hsplit : r = pre.filterMap (emitted d) ++ (e.d_name, Sym.directory) ::
      post.filterMap (emitted d) := by
    rw [hr, listing, hent, filterMap_split, hem]
    simp
  refine ⟨by rw [hsplit]; simp, pre.filterMap (emitted d), post.filterMap (emitted d), ?_, ?_,
    hsplit⟩
  · exact (list_restrict_iff d path pre _).2
      ⟨fun x hx => hall x (by rw [hent]; simp [hx]), h0, hc, rfl⟩
  · exact (list_restrict_iff d path post _).2
      ⟨fun x hx => hall x (by rw [hent]; simp [hx]), h0, hc, rfl⟩

/-- C3 (witness): the symbolic link `sub.rb` to a directory, last entry of the scenario of
the specification, is listed as `(sub.rb, Directory)`. -/
theorem C3_directory_listed_witness :
    ("sub.rb".toList, Sym.directory) ∈
      [("a.rb".toList, Sym.file), ("sub".toList, Sym.directory),
        ("sub.rb".toList, Sym.directory)] :=
  (C3_directory_listed (onDir dirScenario) "/lib".toList dirScenario
    [⟨".hidden".toList, DT_REG⟩, ⟨"a.rb".toList, DT_REG⟩, ⟨"b.txt".toList, DT_REG⟩,
      ⟨"sub".toList, DT_DIR⟩] [] ⟨"sub.rb".toList, DT_LNK⟩ _ rfl rfl (by decide) (by decide)
    rfl).1

/-- C4: a non-hidden entry reported as unknown or symbolic-link, whose status query on the
directory descriptor succeeds, is classified by what the query reports.  Between the listings
`r1` of the entries before it and `r2` of the entries after it, `list` returns `(name, File)`
for a regular-file target exactly when the name is longer than 3 characters and ends in
`.rb`, `(name, Directory)` for a directory target whatever the name, and nothing, without
failing, for any other target. -/
theorem C4_stat_resolved_classification (d : DIR) (path : CStr) (pre post : List dirent)
    (e : dirent) (st_mode : Nat) (r1 r2 : List Tuple)
    (hv : e.d_name.head? ≠ some '.') (hn : e.d_type = DT_UNKNOWN ∨ e.d_type = DT_LNK)
    (h0 : 0 ≤ d.dirfd) (hs : d.fstatat d.dirfd e.d_name = .ok st_mode)
    (h1 : list (onDir { d with entries := pre }) path = .ok r1)
    (h2 : list (onDir { d with entries := post }) path = .ok r2) :
    (S_ISREG st_mode = true →
      list (onDir { d with entries := pre ++ e :: post }) path =
        .ok (r1 ++ (if 3 < e.d_name.length ∧ ".rb".toList <:+ e.d_name
          then [(e.d_name, Sym.file)] else []) ++ r2)) ∧
    (S_ISDIR st_mode = true →
      list (onDir { d with entries := pre ++ e :: post }) path =
        .ok (r1 ++ [(e.d_name, Sym.directory)] ++ r2)) ∧
    (S_ISREG st_mode = false → S_ISDIR st_mode = false →
      list (onDir { d with entries := pre ++ e :: post }) path = .ok (r1 ++ r2)) := by
  obtain ⟨hall1, hrd, hc, hr1⟩ := (list_restrict_iff d path pre r1).1 h1
  obtain ⟨hall2, -, -, hr2⟩ := (list_restrict_iff d path post r2).1 h2
  have he : Resolves d e := fun _ _ => ⟨h0, st_mode, hs⟩
  have hall : ∀ x ∈ pre ++ e :: post, Resolves d x := by
    intro x hx
    rcases List.mem_append.1 hx with h | h
    · exact hall1 x h
    · rcases List.mem_cons.1 h with rfl | h
      · exact he
      · exact hall2 x h
  have hmain : list (onDir { d with entries := pre ++ e :: post }) path =
      .ok (r1 ++ (emitKind e.d_name (statKind st_mode)).toList ++ r2) := by
    rw [list_restrict_iff]
    refine ⟨hall, hrd, hc, ?_⟩
    rw [filterMap_split, emitted_stat d e st_mode hv hn hs, hr1, hr2]
  refine ⟨fun hreg => ?_, fun hdir => ?_, fun hreg hdir => ?_⟩
  · rw [hmain]
    simp only [statKind, hreg, if_true, emitKind]
    split <;> rfl
  · rw [hmain]
    simp only [statKind, isreg_not_isdir st_mode hdir, hdir, if_true, emitKind]
    simp
  · rw [hmain]
    simp only [statKind, hreg, hdir, emitKind]
    simp

/-- C4 (witness): the symbolic link `link.rb` to a regular file is listed as a file. -/
theorem C4_stat_resolved_classification_witness :
    list (onDir { dirLinks with entries :=
        [⟨"a.rb".toList, DT_REG⟩] ++ ⟨"link.rb".toList, DT_LNK⟩ :: [⟨"sub".toList, DT_DIR⟩] })
        "/lib".toList =
      .ok [("a.rb".toList, Sym.file), ("link.rb".toList, Sym.file),
        ("sub".toList, Sym.directory)] :=
  (C4_stat_resolved_classification dirLinks "/lib".toList [⟨"a.rb".toList, DT_REG⟩]
    [⟨"sub".toList, DT_DIR⟩] ⟨"link.rb".toList, DT_LNK⟩ S_IFREG [("a.rb".toList, Sym.file)]
    [("sub".toList, Sym.directory)] (by decide) (by decide) (by decide) rfl rfl rfl).1
    (by decide)

/-- A failing status query makes the whole call fail.  (1) When the entries before `e` get
through the type resolution and the status query on the non-hidden entry `e`, reported as
unknown or symbolic-link, fails with `err`, the call fails with the `fstatat` exception
carrying `err` (whatever `closedir` then answers) and the directory path; the entry name in
the message is the one read after the close, `d.freed_d_name e.d_name`.  No listing is
returned, the failed query is followed by the `closedir` only, and `readdir` was called once
per entry up to and including `e`.  (2) On any run at all, if a status query on a name is
issued and fails, the call fails with that query's exception and the query is followed by
the `closedir` only. -/
theorem stat_failure_aborts (w : World) (path : CStr) :
    (∀ (d : DIR) (pre post : List dirent) (e : dirent) (err : Nat),
      w.opendir path = .ok d → d.entries = pre ++ e :: post →
      (∀ p ∈ pre, p.d_name.head? ≠ some '.' →
        (p.d_type = DT_UNKNOWN ∨ p.d_type = DT_LNK) →
          ∃ st_mode, d.fstatat d.dirfd p.d_name = .ok st_mode) →
      e.d_name.head? ≠ some '.' → (e.d_type = DT_UNKNOWN ∨ e.d_type = DT_LNK) →
      0 ≤ d.dirfd → d.fstatat d.dirfd e.d_name = .error err →
        list w path =
          .error (zw_syserr_fail_dir_entry "fstatat" err path (d.freed_d_name e.d_name)) ∧
        zw_syserr_fail_dir_entry "fstatat" err path (d.freed_d_name e.d_name) =
          ⟨err, "fstatat @ ".toList ++ path ++ "/".toList ++ d.freed_d_name e.d_name⟩ ∧
        ∃ tr0, (zw_filtered_dir_entries_with_type w path).trace =
            tr0 ++ [⟨.fstatat e.d_name, some err⟩, ⟨.closedir, d.closedir⟩] ∧
          (tr0.filter (fun x => decide (x.call = .readdir))).length = pre.length + 1 ∧
          ∀ x ∈ tr0, x.err = none ∧ x.call ≠ .closedir) ∧
    (∀ (name : CStr) (err : Nat),
      (⟨.fstatat name, some err⟩ : Event) ∈ (zw_filtered_dir_entries_with_type w path).trace →
        list w path =
          .error (zw_syserr_fail_dir_entry "fstatat" err path (freedName w path name)) ∧
        ∃ tr0 cl, (zw_filtered_dir_entries_with_type w path).trace =
            tr0 ++ [⟨.fstatat name, some err⟩, ⟨.closedir, cl⟩] ∧
          ∀ x ∈ tr0, x.err = none ∧ x.call ≠ .closedir) := by
  constructor
  · intro d pre post e err ho hent hpre hv hn h0 hs
    have hinit : (-1 : Int) < 0 ∨ (-1 : Int) = d.dirfd := Or.inl (by decide)
    have hres : ∀ p ∈ pre, Resolves d p := fun p hp hpv hpn => ⟨h0, hpre p hp hpv hpn⟩
    obtain ⟨dfd1, ev, hd1, hloop, hcnt, hok, -⟩ :=
      loop_prefix d path pre (e :: post) (-1) [] [⟨.opendir, none⟩] hinit hres
    have hit := iteration_fstatat_fails d path e dfd1 ([] ++ pre.filterMap (emitted d))
      ([⟨.opendir, none⟩] ++ ev ++ [⟨.readdir, none⟩]) err hd1 hv hn h0 hs
    have hrun : zw_filtered_dir_entries_with_type w path =
        ⟨.error (zw_syserr_fail_dir_entry "fstatat" err path (d.freed_d_name e.d_name)),
          [⟨.opendir, none⟩] ++ ev ++ [⟨.readdir, none⟩] ++
            (if dfd1 < 0 then [⟨.dirfd, none⟩] else []) ++
            [⟨.fstatat e.d_name, some err⟩, ⟨.closedir, d.closedir⟩]⟩ := by
      unfold zw_filtered_dir_entries_with_type
      simp only [ho]
      rw [hent, hloop, zw_loop, hit]
    refine ⟨by rw [list, hrun], rfl, ?_⟩
    rw [hrun]
    refine ⟨_, rfl, ?_, ?_⟩
    · simp only [List.filter_append, List.length_append, hcnt]
      split <;> simp
    · intro x hx
      simp only [List.mem_append, List.mem_singleton] at hx
      rcases hx with ((rfl | hx) | rfl) | hx
      · simp
      · exact ⟨(hok x hx).1, (hok x hx).2.1⟩
      · simp
      · split at hx
        · simp at hx; subst hx; simp
        · simp at hx
  · intro name err hmem
    cases ho : w.opendir path with
    | error en =>
      have htr : (zw_filtered_dir_entries_with_type w path).trace = [⟨.opendir, some en⟩] := by
        unfold zw_filtered_dir_entries_with_type
        simp only [ho]
      rw [htr] at hmem
      simp at hmem
    | ok d =>
      obtain ⟨ev, hok, hcase⟩ := run_shape w path d ho
      have hnot : (⟨.fstatat name, some err⟩ : Event) ∉ ev := by
        intro h
        have := (hok _ h).1
        simp at this
      rcases hcase with ⟨r, -, -, htr⟩ | ⟨c, en, -, -, hout, htr⟩ | ⟨en, -, -, htr⟩
      · rw [htr] at hmem
        rcases List.mem_append.1 hmem with h | h
        · exact absurd h hnot
        · simp at h
      · rw [htr] at hmem
        rcases List.mem_append.1 hmem with h | h
        · exact absurd h hnot
        · simp only [List.mem_cons, Event.mk.injEq, Option.some.injEq, List.mem_singleton,
            List.not_mem_nil, or_false] at h
          rcases h with ⟨hc, he⟩ | ⟨hc, -⟩
          · subst hc he
            have hfn : freedName w path = d.freed_d_name := by
              unfold freedName
              rw [ho]
            exact ⟨by rw [list, hout, hfn]; rfl, ev, d.closedir, htr,
              fun x hx => hok x hx⟩
          · exact Syscall.noConfusion hc
      · rw [htr] at hmem
        rcases List.mem_append.1 hmem with h | h
        · exact absurd h hnot
        · simp at h

/-- C5 (the code at the failing input): `dirDanglingReleased` holds the dangling symbolic link
`dangling` after two entries that get through.  The status query on it fails with `errno` 2
and the call fails as a whole, reading no further entry and returning no listing; the
exception carries `errno` 2 and the path, but the entry name in its message is read at line 87
from the stream that line 86 has closed: here it is empty, so the exception is not the one
carrying the name `dangling`. -/
theorem C5_entry_name_read_after_closedir :
    list (onDir dirDanglingReleased) "/lib".toList = .error ⟨2, "fstatat @ /lib/".toList⟩ ∧
    list (onDir dirDanglingReleased) "/lib".toList ≠
      .error (zw_syserr_fail_dir_entry "fstatat" 2 "/lib".toList "dangling".toList) ∧
    (zw_filtered_dir_entries_with_type (onDir dirDanglingReleased) "/lib".toList).trace =
      [⟨.opendir, none⟩, ⟨.readdir, none⟩, ⟨.readdir, none⟩, ⟨.dirfd, none⟩,
        ⟨.fstatat "good".toList, none⟩, ⟨.readdir, none⟩,
        ⟨.fstatat "dangling".toList, some 2⟩, ⟨.closedir, none⟩] := by
  refine ⟨rfl, ?_, rfl⟩
  intro h
  have h2 : list (onDir dirDanglingReleased) "/lib".toList =
      .error ⟨2, "fstatat @ /lib/".toList⟩ := rfl
  rw [h2] at h
  simp only [Except.error.injEq] at h
  exact absurd (congrArg (fun x => x.message.length) h) (by decide)

/-- C6: every sequence `list` returns is well formed: no name in it starts with `.`, and a
pair classified `File` has a name that ends in `.rb` and is longer than 3 characters. -/
theorem C6_listing_well_formed (w : World) (path : CStr) (r : List Tuple)
    (hl : list w path = .ok r) :
    ∀ t ∈ r, t.1.head? ≠ some '.' ∧
      (t.2 = Sym.file → ".rb".toList <:+ t.1 ∧ 3 < t.1.length) := by
  obtain ⟨d, ho⟩ := list_ok_opened w path r hl
  obtain ⟨-, -, -, hr⟩ := (list_ok_iff w path d ho r).1 hl
  intro t ht
  rw [hr, listing, List.mem_filterMap] at ht
  obtain ⟨e, -, he⟩ := ht
  exact emitted_wf d e t he

/-- C6 (witness): the pair `(a.rb, File)` of the listing of the scenario. -/
theorem C6_listing_well_formed_witness :
    ("a.rb".toList, Sym.file).1.head? ≠ some '.' ∧
      (("a.rb".toList, Sym.file).2 = Sym.file →
        ".rb".toList <:+ ("a.rb".toList, Sym.file).1 ∧ 3 < ("a.rb".toList, Sym.file).1.length) :=
  C6_listing_well_formed (onDir dirScenario) "/lib".toList
    [("a.rb".toList, Sym.file), ("sub".toList, Sym.directory), ("sub.rb".toList, Sym.directory)]
    rfl ("a.rb".toList, Sym.file) (by decide)

/-- C7: for every directory all of whose entries have names beginning with `.`, whatever
their reported types and whatever `dirfd` and the status queries would answer, if the open,
the terminating read and the close succeed then `list` returns the empty sequence; no
classification is attempted: the only calls made are `opendir`, `readdir` and `closedir`. -/
theorem C7_only_hidden_entries (w : World) (path : CStr) (d : DIR)
    (ho : w.opendir path = .ok d)
    (hall : ∀ e ∈ d.entries, e.d_name.head? = some '.')
    (hr : d.readdir_errno = 0) (hc : d.closedir = none) :
    list w path = .ok [] ∧
    ∀ x ∈ (zw_filtered_dir_entries_with_type w path).trace,
      x.call = .opendir ∨ x.call = .readdir ∨ x.call = .closedir := by
  have hinit : (-1 : Int) < 0 ∨ (-1 : Int) = d.dirfd := Or.inl (by decide)
  have hres : ∀ e ∈ d.entries, Resolves d e := fun e he hv => absurd (hall e he) hv
  have hnone : d.entries.filterMap (emitted d) = [] := by
    rw [List.filterMap_eq_nil_iff]
    intro e he
    simp [emitted, hall e he]
  obtain ⟨ev, hl, -, -, hcalls⟩ :=
    loop_all_resolve d path d.entries (-1) [] [⟨.opendir, none⟩] hinit hres
  have hrun : zw_filtered_dir_entries_with_type w path =
      ⟨.ok [], [⟨.opendir, none⟩] ++ ev ++ [⟨.readdir, none⟩] ++ [⟨.closedir, none⟩]⟩ := by
    unfold zw_filtered_dir_entries_with_type
    simp only [ho, hl]
    rw [if_neg (not_not.2 hr), hc, hnone, hr]
    simp
  refine ⟨by rw [list, hrun], ?_⟩
  rw [hrun]
  intro x hx
  simp only [List.mem_append, List.mem_singleton] at hx
  rcases hx with ((rfl | hx) | rfl) | rfl
  · exact Or.inl rfl
  · exact Or.inr (Or.inl (hcalls hall x hx))
  · exact Or.inr (Or.inl rfl)
  · exact Or.inr (Or.inr rfl)

/-- C7 (witness): a directory of hidden entries only, among them a dangling link. -/
theorem C7_only_hidden_entries_witness :
    list (onDir dirOnlyHidden) "/lib".toList = .ok [] :=
  (C7_only_hidden_entries (onDir dirOnlyHidden) "/lib".toList dirOnlyHidden rfl (by decide)
    rfl rfl).1

/-- C9 (as stated, refuted): on `dirCloseFails` the open succeeds, no status query fails (any
would succeed, none is issued), the terminating read would report end-of-stream and the close
fails with `errno` 5; the call fails, but with the `dirfd` failure and its `errno` 9, not with
the `closedir` failure. -/
theorem C9_close_failure_masked_by_dirfd :
    (onDir dirCloseFails).opendir "/lib".toList = .ok dirCloseFails ∧
    (∀ (dfd : Int) (name : CStr), dirCloseFails.fstatat dfd name = .ok S_IFDIR) ∧
    dirCloseFails.readdir_errno = 0 ∧ dirCloseFails.closedir = some 5 ∧
    list (onDir dirCloseFails) "/lib".toList =
      .error (zw_syserr_fail_path "dirfd" 9 "/lib".toList) ∧
    list (onDir dirCloseFails) "/lib".toList ≠
      .error (zw_syserr_fail_path "closedir" 5 "/lib".toList) ∧
    (zw_filtered_dir_entries_with_type (onDir dirCloseFails) "/lib".toList).trace =
      [⟨.opendir, none⟩, ⟨.readdir, none⟩, ⟨.dirfd, some 9⟩, ⟨.closedir, some 5⟩] := by
  refine ⟨rfl, fun _ _ => rfl, rfl, rfl, rfl, ?_, rfl⟩
  intro h
  have h2 : list (onDir dirCloseFails) "/lib".toList =
      .error (zw_syserr_fail_path "dirfd" 9 "/lib".toList) := rfl
  rw [h2] at h
  simp only [Except.error.injEq] at h
  exact absurd (congrArg SystemCallError.errno h) (by decide)

/-- C9 (amended): when the open succeeds and the close fails with `en`, `list` never returns
a listing; and if moreover, for every non-hidden entry reported as unknown or symbolic-link,
the directory descriptor is obtained and the status query succeeds, and the stream ends
without a read error, then `list` fails with the `closedir` exception carrying `en` and the
path, whatever the entries were. -/
theorem C9_close_failure_discards_listing (w : World) (path : CStr) (d : DIR) (en : Nat)
    (ho : w.opendir path = .ok d) (hc : d.closedir = some en) :
    (∀ r, list w path ≠ .ok r) ∧
    ((∀ e ∈ d.entries, e.d_name.head? ≠ some '.' →
        (e.d_type = DT_UNKNOWN ∨ e.d_type = DT_LNK) →
          0 ≤ d.dirfd ∧ ∃ st_mode, d.fstatat d.dirfd e.d_name = .ok st_mode) →
      d.readdir_errno = 0 →
      list w path = .error (zw_syserr_fail_path "closedir" en path) ∧
      zw_syserr_fail_path "closedir" en path = ⟨en, "closedir @ ".toList ++ path⟩) := by
  constructor
  · intro r hl
    obtain ⟨-, -, hcl, -⟩ := (list_ok_iff w path d ho r).1 hl
    rw [hcl] at hc
    exact Option.noConfusion hc
  · intro hq hr
    have hinit : (-1 : Int) < 0 ∨ (-1 : Int) = d.dirfd := Or.inl (by decide)
    obtain ⟨ev, hl, -⟩ := loop_all_resolve d path d.entries (-1) [] [⟨.opendir, none⟩] hinit hq
    refine ⟨?_, rfl⟩
    unfold list zw_filtered_dir_entries_with_type
    simp only [ho, hl]
    rw [if_neg (not_not.2 hr), hc]

/-- C9 (witness): two entries are listed, the close fails with `errno` 5, the call fails. -/
theorem C9_close_failure_discards_listing_witness :
    list (onDir dirBadClose) "/lib".toList =
      .error (zw_syserr_fail_path "closedir" 5 "/lib".toList) :=
  ((C9_close_failure_discards_listing (onDir dirBadClose) "/lib".toList dirBadClose 5 rfl
    rfl).2 (fun _ _ _ _ => ⟨by decide, S_IFDIR, rfl⟩) rfl).1

/-- C10: on every run in which the open succeeds, `closedir` is the last system call of the
run and is called exactly once (whether the run returns, or fails on `dirfd`, on the status
query, on the terminating read or on the close itself); when the open fails, `opendir` is
the only call and `closedir` is never called. -/
theorem C10_stream_closed_exactly_once (w : World) (path : CStr) :
    (∀ d, w.opendir path = .ok d →
      ∃ tr0, (zw_filtered_dir_entries_with_type w path).trace =
          tr0 ++ [⟨.closedir, d.closedir⟩] ∧
        ∀ x ∈ tr0, x.call ≠ .closedir) ∧
    (∀ en, w.opendir path = .error en →
      (zw_filtered_dir_entries_with_type w path).trace = [⟨.opendir, some en⟩]) := by
  constructor
  · intro d ho
    obtain ⟨ev, hok, hcase⟩ := run_shape w path d ho
    rcases hcase with ⟨r, hc, -, htr⟩ | ⟨c, en, hne, -, -, htr⟩ | ⟨en, hc, -, htr⟩
    · exact ⟨ev, by rw [htr, hc], fun x hx => (hok x hx).2⟩
    · refine ⟨ev ++ [⟨c, some en⟩], by rw [htr]; simp, ?_⟩
      intro x hx
      rcases List.mem_append.1 hx with h | h
      · exact (hok x h).2
      · simp at h; subst h; exact hne
    · exact ⟨ev, by rw [htr, hc], fun x hx => (hok x hx).2⟩
  · intro en ho
    unfold zw_filtered_dir_entries_with_type
    simp only [ho]

/-- C10 (witness): the run that fails on the dangling link closes the stream once, last. -/
theorem C10_stream_closed_exactly_once_witness :
    ∃ tr0, (zw_filtered_dir_entries_with_type (onDir dirDangling) "/lib".toList).trace =
        tr0 ++ [⟨.closedir, dirDangling.closedir⟩] ∧
      ∀ x ∈ tr0, x.call ≠ .closedir :=
  (C10_stream_closed_exactly_once (onDir dirDangling) "/lib".toList).1 dirDangling rfl

end Zeitwerk
